import Mathlib

/-!
# Verification of the to-do list manager (local browser-storage variant)

Shallow embedding of the client-side to-do application.  The JavaScript
module keeps a global mutable array `todos`; here each mutation is a pure
function from the current collection to a `MutResult` carrying the new
collection together with two booleans recording whether the mutation
invoked `save()` (a persistence call) and `render()` (a re-render).
In-place object mutation (`t.completed = completed` on the element
returned by `Array.prototype.find`) is rendered as functional update of
the first matching element.

Browser built-ins (`localStorage`, `JSON.stringify`, `JSON.parse`,
`Date.now`, `Math.random`) are not part of the repository; they are
modelled explicitly: storage as a partial map from keys to strings,
`JSON.parse` either as an abstract parameter (where only its success or
failure matters) or as the executable codec `parseTodos` faithful to the
JSON grammar on the image of `JSON.stringify` for this data shape.
-/

/-- A task item as stored by the local variant: the object literal
`{ id: nextId(), text: t, completed: false, createdAt: Date.now() }`. -/
structure Todo where
  id : String
  text : String
  completed : Bool
  createdAt : Nat
deriving Repr, DecidableEq

/-- Result of one mutation operation: the new collection, whether `save()`
was called, and whether `render()` was called. -/
structure MutResult where
  todos : List Todo
  saved : Bool
  rendered : Bool
deriving Repr, DecidableEq

/-- The ECMAScript `String.prototype.trim` whitespace set: WhiteSpace
(TAB, VT, FF, SP, NBSP, ZWNBSP and the Unicode Space_Separator category)
plus LineTerminator (LF, CR, LS, PS). -/
def isJsWhitespace (c : Char) : Bool :=
  c.toNat = 0x9 || c.toNat = 0xA || c.toNat = 0xB || c.toNat = 0xC ||
  c.toNat = 0xD || c.toNat = 0x20 || c.toNat = 0xA0 || c.toNat = 0x1680 ||
  (0x2000 ≤ c.toNat && c.toNat ≤ 0x200A) || c.toNat = 0x2028 ||
  c.toNat = 0x2029 || c.toNat = 0x202F || c.toNat = 0x205F ||
  c.toNat = 0x3000 || c.toNat = 0xFEFF

/-- Model of JavaScript `text.trim()`: drop leading and trailing
characters of the ECMAScript whitespace set. -/
def jsTrim (s : String) : String :=
  ⟨((s.data.dropWhile isJsWhitespace).reverse.dropWhile isJsWhitespace).reverse⟩

/-- `const STORAGE_KEY = 'todos:v1'`. -/
def STORAGE_KEY : String := "todos:v1"

/-- `addTodo(text)`: trim; if the trimmed text is falsy (empty) return
without touching anything; otherwise `unshift` a fresh item and
`save(); render()`.  The ambient `nextId()` and `Date.now()` values are
passed in as `nid` and `now`. -/
def addTodo (nid : String) (now : Nat) (text : String) (todos : List Todo) : MutResult :=
  let t := jsTrim text
  if t = "" then ⟨todos, false, false⟩
  else ⟨⟨nid, t, false, now⟩ :: todos, true, true⟩

/-- The in-place `t.completed = completed` on the element found by
`todos.find(x => x.id === id)`: functionally, update the first element
whose `id` matches. -/
def setFirst (id : String) (completed : Bool) : List Todo → List Todo
  | [] => []
  | t :: rest =>
    if t.id = id then { t with completed := completed } :: rest
    else t :: setFirst id completed rest

/-- `toggleTodo(id, completed)`: if `find` locates a matching item, set
its flag and `save(); render()`; otherwise do nothing. -/
def toggleTodo (id : String) (completed : Bool) (todos : List Todo) : MutResult :=
  if todos.any (fun x => x.id == id) then ⟨setFirst id completed todos, true, true⟩
  else ⟨todos, false, false⟩

/-- `deleteTodo(id)`: `todos = todos.filter(x => x.id !== id); save(); render()`.
Note that `save()` and `render()` are unconditional in the source. -/
def deleteTodo (id : String) (todos : List Todo) : MutResult :=
  ⟨todos.filter (fun x => x.id != id), true, true⟩

/-- `clearCompleted()`: filter out completed items; `save(); render()`
only when the length changed. -/
def clearCompleted (todos : List Todo) : MutResult :=
  let remaining := todos.filter (fun x => !x.completed)
  if remaining.length ≠ todos.length then ⟨remaining, true, true⟩
  else ⟨remaining, false, false⟩

/-- `const active = todos.filter(t => !t.completed).length` from
`renderCounts`. -/
def activeCount (todos : List Todo) : Nat :=
  (todos.filter (fun t => !t.completed)).length

/-- `renderCounts`: the text content written to the count element,
`` `${active} ${active === 1 ? 'item' : 'items'}` ``. -/
def renderCounts (todos : List Todo) : String :=
  toString (activeCount todos) ++ " " ++
    (if activeCount todos = 1 then "item" else "items")

/-- `load()`: read `STORAGE_KEY` from storage (`getItem` returns null for
a missing key, modelled by `Option`); a falsy value (null or the empty
string) yields `[]`; otherwise the value is fed to `JSON.parse` inside
`try { ... } catch { todos = [] }`, so a parse failure (modelled by
`parse` returning `none`) also yields `[]`.  The function is total: no
error reaches the caller. -/
def load (parse : String → Option (List Todo)) (storage : String → Option String) :
    List Todo :=
  match storage STORAGE_KEY with
  | none => []
  | some raw => if raw = "" then [] else (parse raw).getD []

/-- `save()`: `localStorage.setItem(STORAGE_KEY, JSON.stringify(todos))`,
with the serializer passed in as `stringify`. -/
def save (stringify : List Todo → String) (storage : String → Option String)
    (todos : List Todo) : String → Option String :=
  fun k => if k = STORAGE_KEY then some (stringify todos) else storage k

/-!
## The JSON codec

`JSON.stringify` and `JSON.parse` are browser built-ins, not repository
code; the claims about persistence need them only on arrays of task
items.  `stringifyTodos` reproduces `JSON.stringify` exactly on such
arrays (ECMAScript `QuoteJSONString` escaping, object keys in property
creation order, decimal integers).  `parseTodos` models `JSON.parse`
restricted to that grammar: it accepts every string `stringifyTodos`
can emit (plus the standard JSON string escapes) and rejects the rest.
-/

/-- Lowercase hexadecimal digit, as emitted by `QuoteJSONString`. -/
def hexDigitChar (n : Nat) : Char :=
  if n < 10 then Char.ofNat (48 + n) else Char.ofNat (87 + n)

/-- ECMAScript `QuoteJSONString` escaping of one character: named escapes
for quote, backslash, backspace, tab, newline, form feed and carriage
return; `\u00xx` for the remaining control characters; everything else
verbatim. -/
def escapeChar (c : Char) : List Char :=
  if c = '"' then ['\\', '"']
  else if c = '\\' then ['\\', '\\']
  else if c.toNat = 8 then ['\\', 'b']
  else if c.toNat = 9 then ['\\', 't']
  else if c.toNat = 10 then ['\\', 'n']
  else if c.toNat = 12 then ['\\', 'f']
  else if c.toNat = 13 then ['\\', 'r']
  else if c.toNat < 32 then
    ['\\', 'u', '0', '0', hexDigitChar (c.toNat / 16), hexDigitChar (c.toNat % 16)]
  else [c]

/-- The escaped body of a JSON string literal (without the quotes). -/
def escString (s : String) : List Char :=
  s.data.flatMap escapeChar

/-- Decimal digits of a natural number, most significant first, as
`JSON.stringify` prints an integral Number in this range. -/
def toDec (n : Nat) : List Char :=
  if _h : n < 10 then [Char.ofNat (48 + n)]
  else toDec (n / 10) ++ [Char.ofNat (48 + n % 10)]
termination_by n
decreasing_by exact Nat.div_lt_self (by omega) (by omega)

/-- The JSON boolean literals. -/
def boolChars (b : Bool) : List Char :=
  if b then ['t', 'r', 'u', 'e'] else ['f', 'a', 'l', 's', 'e']

/-- The opening of a serialized task item: an opening brace followed by
the quoted key `id`, a colon, and the opening quote of its value. -/
def litIdKey : List Char := [Char.ofNat 123, '"', 'i', 'd', '"', ':', '"']

/-- Separator between the id value and the quoted `text` value: comma,
quoted key, colon, opening quote. -/
def litTextKey : List Char := [',', '"', 't', 'e', 'x', 't', '"', ':', '"']

/-- Separator before the boolean: comma, quoted key `completed`, colon. -/
def litCompletedKey : List Char :=
  [',', '"', 'c', 'o', 'm', 'p', 'l', 'e', 't', 'e', 'd', '"', ':']

/-- Separator before the timestamp: comma, quoted key `createdAt`, colon. -/
def litCreatedKey : List Char :=
  [',', '"', 'c', 'r', 'e', 'a', 't', 'e', 'd', 'A', 't', '"', ':']

/-- `JSON.stringify` of one task item: keys in property creation order
`id`, `text`, `completed`, `createdAt`. -/
def stringifyTodoChars (t : Todo) : List Char :=
  litIdKey ++ escString t.id ++ '"' :: litTextKey ++ escString t.text ++
    '"' :: litCompletedKey ++ boolChars t.completed ++ litCreatedKey ++
    toDec t.createdAt ++ [Char.ofNat 125]

/-- The comma-separated serialized items of a non-empty array. -/
def itemsChars : List Todo → List Char
  | [] => []
  | [t] => stringifyTodoChars t
  | t :: ts => stringifyTodoChars t ++ ',' :: itemsChars ts

/-- `JSON.stringify(todos)`: the bracketed, comma-separated array. -/
def stringifyTodos (l : List Todo) : String :=
  ⟨'[' :: itemsChars l ++ [']']⟩

/-- Value of one hexadecimal digit (JSON accepts both cases). -/
def hexVal (c : Char) : Option Nat :=
  if 48 ≤ c.toNat ∧ c.toNat ≤ 57 then some (c.toNat - 48)
  else if 97 ≤ c.toNat ∧ c.toNat ≤ 102 then some (c.toNat - 87)
  else if 65 ≤ c.toNat ∧ c.toNat ≤ 70 then some (c.toNat - 55)
  else none

/-- The character denoted by a `\uXXXX` escape with hex digit values
`v1 v2 v3 v4`. -/
def hex4 (v1 v2 v3 v4 : Nat) : Char :=
  Char.ofNat (4096 * v1 + 256 * v2 + 16 * v3 + v4)

/-- Parse the body of a JSON string literal up to and including the
closing quote, decoding the standard escapes; raw control characters
are rejected, as `JSON.parse` rejects them. -/
def parseStringBody : List Char → Option (List Char × List Char)
  | [] => none
  | c :: rest =>
    if c = '"' then some ([], rest)
    else if c = '\\' then
      match rest with
      | [] => none
      | e :: r =>
        if e = '"' then (parseStringBody r).map (fun p => ('"' :: p.1, p.2))
        else if e = '\\' then (parseStringBody r).map (fun p => ('\\' :: p.1, p.2))
        else if e = '/' then (parseStringBody r).map (fun p => ('/' :: p.1, p.2))
        else if e = 'b' then (parseStringBody r).map (fun p => (Char.ofNat 8 :: p.1, p.2))
        else if e = 'f' then (parseStringBody r).map (fun p => (Char.ofNat 12 :: p.1, p.2))
        else if e = 'n' then (parseStringBody r).map (fun p => (Char.ofNat 10 :: p.1, p.2))
        else if e = 'r' then (parseStringBody r).map (fun p => (Char.ofNat 13 :: p.1, p.2))
        else if e = 't' then (parseStringBody r).map (fun p => (Char.ofNat 9 :: p.1, p.2))
        else if e = 'u' then
          match r with
          | h1 :: h2 :: h3 :: h4 :: r2 =>
            match hexVal h1, hexVal h2, hexVal h3, hexVal h4 with
            | some v1, some v2, some v3, some v4 =>
              (parseStringBody r2).map (fun p => (hex4 v1 v2 v3 v4 :: p.1, p.2))
            | _, _, _, _ => none
          | _ => none
        else none
    else if c.toNat < 32 then none
    else (parseStringBody rest).map (fun p => (c :: p.1, p.2))

/-- Consume an expected literal character sequence. -/
def expectLit : List Char → List Char → Option (List Char)
  | [], s => some s
  | _ :: _, [] => none
  | c :: l, d :: s => if c = d then expectLit l s else none

/-- Parse a JSON boolean literal. -/
def parseBool (s : List Char) : Option (Bool × List Char) :=
  match expectLit ['t', 'r', 'u', 'e'] s with
  | some r => some (true, r)
  | none =>
    match expectLit ['f', 'a', 'l', 's', 'e'] s with
    | some r => some (false, r)
    | none => none

/-- Decimal digit test. -/
def isDigitCh (c : Char) : Bool :=
  48 ≤ c.toNat && c.toNat ≤ 57

/-- Value of a most-significant-first digit string. -/
def digitsToNat (ds : List Char) : Nat :=
  ds.foldl (fun a c => 10 * a + (c.toNat - 48)) 0

/-- Parse a non-negative JSON integer (no leading zeros, per the JSON
number grammar). -/
def parseNatTok (s : List Char) : Option (Nat × List Char) :=
  let ds := s.takeWhile isDigitCh
  if ds = [] then none
  else if ds.head? = some '0' ∧ ds.length ≠ 1 then none
  else some (digitsToNat ds, s.dropWhile isDigitCh)

/-- Parse one serialized task item (the exact key sequence
`JSON.stringify` emits for this object shape). -/
def parseTodoObj (s : List Char) : Option (Todo × List Char) := do
  let s1 ← expectLit litIdKey s
  let (idc, s2) ← parseStringBody s1
  let s3 ← expectLit litTextKey s2
  let (txt, s4) ← parseStringBody s3
  let s5 ← expectLit litCompletedKey s4
  let (b, s6) ← parseBool s5
  let s7 ← expectLit litCreatedKey s6
  let (n, s8) ← parseNatTok s7
  let s9 ← expectLit [Char.ofNat 125] s8
  return (⟨⟨idc⟩, ⟨txt⟩, b, n⟩, s9)

/-- Parse one or more comma-separated task items followed by the closing
bracket; `fuel` bounds the number of items. -/
def parseItemsAux : Nat → List Char → Option (List Todo × List Char)
  | 0, _ => none
  | fuel + 1, s => do
    let (t, r) ← parseTodoObj s
    match r with
    | [] => none
    | c :: r2 =>
      if c = ',' then (parseItemsAux fuel r2).map (fun p => (t :: p.1, p.2))
      else if c = ']' then some ([t], r2)
      else none

/-- Character-list worker for `parseTodos`: a bracketed, comma-separated
list of task-item objects, with full JSON string-escape handling inside
the string values. -/
def parseTodosChars (l : List Char) : Option (List Todo) :=
  match l with
  | '[' :: r =>
    if r = [']'] then some []
    else
      match parseItemsAux (r.length + 1) r with
      | some (ts, rest) => if rest = [] then some ts else none
      | none => none
  | _ => none

/-- Model of `JSON.parse` on the grammar of serialized task-item
arrays. -/
def parseTodos (s : String) : Option (List Todo) :=
  parseTodosChars s.data

/-- The local variant's `load()` with the concrete JSON model. -/
def loadLocal (storage : String → Option String) : List Todo :=
  load parseTodos storage

/-- The local variant's `save()` with the concrete JSON model. -/
def saveLocal (storage : String → Option String) (todos : List Todo) :
    String → Option String :=
  save stringifyTodos storage todos

/-!
## Helper lemmas about the store operations
-/

/-- `activeCount` of a cons: the head contributes one exactly when it is
not completed. -/
theorem activeCount_cons (t : Todo) (l : List Todo) :
    activeCount (t :: l) = (if t.completed then 0 else 1) + activeCount l := by
  cases h : t.completed <;> simp [activeCount, List.filter_cons, h, Nat.add_comm]

/-- Updating the first matching item does not change the id sequence. -/
theorem setFirst_map_id (id : String) (c : Bool) (l : List Todo) :
    (setFirst id c l).map Todo.id = l.map Todo.id := by
  induction l with
  | nil => rfl
  | cons h t ih => by_cases hh : h.id = id <;> simp [setFirst, hh, ih]

/-- The conditional flag update is the identity on a list containing no
matching id. -/
theorem map_if_completed_of_not_mem (id : String) (c : Bool) (l : List Todo)
    (h : id ∉ l.map Todo.id) :
    l.map (fun t => if t.id = id then { t with completed := c } else t) = l := by
  induction l with
  | nil => rfl
  | cons x xs ih =>
    simp only [List.map_cons, List.mem_cons, not_or] at h
    have hx : x.id ≠ id := fun he => h.1 he.symm
    simp [hx, ih h.2]

/-- Under unique ids, updating the first matching item equals the
pointwise conditional update of every item. -/
theorem setFirst_eq_map (id : String) (c : Bool) (l : List Todo)
    (hn : (l.map Todo.id).Nodup) :
    setFirst id c l =
      l.map (fun t => if t.id = id then { t with completed := c } else t) := by
  induction l with
  | nil => rfl
  | cons h t ih =>
    simp only [List.map_cons, List.nodup_cons] at hn
    by_cases hh : h.id = id
    · simp only [setFirst, if_pos hh, List.map_cons, hh]
      rw [map_if_completed_of_not_mem id c t (hh ▸ hn.1)]
      simp
    · simp [setFirst, hh, ih hn.2]

/-- A member of the list with the head's id is the head, when ids are
unique. -/
theorem eq_head_of_mem_of_id (h : Todo) (rest : List Todo) (t : Todo)
    (hn : h.id ∉ rest.map Todo.id) (ht : t ∈ h :: rest) (hid : t.id = h.id) :
    t = h := by
  rcases List.mem_cons.1 ht with rfl | hmem
  · rfl
  · exact absurd (hid ▸ List.mem_map_of_mem Todo.id hmem) hn

/-- Effect of `setFirst` on the active count when the first matching
item's flag actually changes: completing removes one active item,
un-completing adds one. -/
theorem activeCount_setFirst (id : String) (c : Bool) (t : Todo) (l : List Todo)
    (hn : (l.map Todo.id).Nodup) (ht : t ∈ l) (hid : t.id = id)
    (hne : t.completed ≠ c) :
    activeCount (setFirst id c l) + (if c then 1 else 0) =
      activeCount l + (if c then 0 else 1) := by
  induction l with
  | nil => cases ht
  | cons h rest ih =>
    simp only [List.map_cons, List.nodup_cons] at hn
    by_cases hh : h.id = id
    · have hth : t = h := eq_head_of_mem_of_id h rest t hn.1 ht (hid.trans hh.symm)
      subst hth
      simp only [setFirst, if_pos hh]
      rw [activeCount_cons, activeCount_cons]
      have hc : t.completed = !c := by cases c <;> cases hco : t.completed <;> simp_all
      cases c <;> simp [hc] <;> omega
    · have htr : t ∈ rest := by
        rcases List.mem_cons.1 ht with rfl | hm
        · exact absurd hid hh
        · exact hm
      simp only [setFirst, if_neg hh]
      rw [activeCount_cons, activeCount_cons]
      have := ih hn.2 htr
      cases c <;> simp_all <;> omega

/-- An id occurs in the list iff `Array.prototype.find`'s predicate
succeeds somewhere. -/
theorem any_id_eq_true (id : String) (l : List Todo) :
    l.any (fun x => x.id == id) = true ↔ ∃ t ∈ l, t.id = id := by
  simp [List.any_eq_true]

/-!
## Claim theorems
-/

/-- C1 (counterexample): with the one-item collection `[{id := "a"}]` and
the absent id `"b"`, `deleteTodo` leaves the collection unchanged yet
still calls `save()` and `render()` — refuting the claim that deleting a
nonexistent id performs no persistence call and no re-render. -/
theorem c1_counterexample :
    (∀ t ∈ [Todo.mk "a" "x" false 0], t.id ≠ "b") ∧
    (deleteTodo "b" [Todo.mk "a" "x" false 0]).todos = [Todo.mk "a" "x" false 0] ∧
    (deleteTodo "b" [Todo.mk "a" "x" false 0]).saved = true ∧
    (deleteTodo "b" [Todo.mk "a" "x" false 0]).rendered = true := by
  decide

/-- C1 (amended): deleting an id not present in the collection leaves the
collection unchanged, but `deleteTodo` nevertheless calls `save()` and
`render()` unconditionally — it persists even though nothing changed. -/
theorem c1_delete_absent (todos : List Todo) (id : String)
    (h : ∀ t ∈ todos, t.id ≠ id) :
    (deleteTodo id todos).todos = todos ∧ (deleteTodo id todos).saved = true ∧
      (deleteTodo id todos).rendered = true := by
  refine ⟨?_, rfl, rfl⟩
  exact List.filter_eq_self.2 (fun t ht => by simp [bne_iff_ne, h t ht])

/-- C1 (witness): the amended statement at the concrete counterexample
input. -/
theorem c1_delete_absent_witness :
    (deleteTodo "b" [Todo.mk "a" "x" false 0]).todos = [Todo.mk "a" "x" false 0] ∧
    (deleteTodo "b" [Todo.mk "a" "x" false 0]).saved = true ∧
    (deleteTodo "b" [Todo.mk "a" "x" false 0]).rendered = true :=
  c1_delete_absent [Todo.mk "a" "x" false 0] "b" (by decide)

/-- C2: `toggleTodo` on an absent id changes nothing and calls neither
`save()` nor `render()`; on a present id (ids being unique, the stated
data-model invariant) it persists and the collection becomes the
pointwise update setting exactly the matching item's flag to the given
value. -/
theorem c2_toggle (todos : List Todo) (id : String) (c : Bool) :
    ((∀ t ∈ todos, t.id ≠ id) → toggleTodo id c todos = ⟨todos, false, false⟩) ∧
    ((todos.map Todo.id).Nodup → (∃ t ∈ todos, t.id = id) →
      (toggleTodo id c todos).saved = true ∧
      (toggleTodo id c todos).todos =
        todos.map (fun t => if t.id = id then { t with completed := c } else t)) := by
  constructor
  · intro h
    have ha : todos.any (fun x => x.id == id) = false := by
      simp only [List.any_eq_false]
      intro t ht
      simp [h t ht]
    simp [toggleTodo, ha]
  · intro hn hp
    have ha : todos.any (fun x => x.id == id) = true := (any_id_eq_true id todos).2 hp
    simp [toggleTodo, ha, setFirst_eq_map id c todos hn]

/-- C2 (witness): both branches of the claim at concrete inputs. -/
theorem c2_toggle_witness :
    toggleTodo "z" true [Todo.mk "a" "x" false 0] =
      ⟨[Todo.mk "a" "x" false 0], false, false⟩ ∧
    ((toggleTodo "a" true [Todo.mk "a" "x" false 0]).saved = true ∧
      (toggleTodo "a" true [Todo.mk "a" "x" false 0]).todos =
        [Todo.mk "a" "x" false 0].map
          (fun t => if t.id = "a" then { t with completed := true } else t)) :=
  ⟨(c2_toggle [Todo.mk "a" "x" false 0] "z" true).1 (by decide),
   (c2_toggle [Todo.mk "a" "x" false 0] "a" true).2 (by decide) (by decide)⟩

/-- C3: `clearCompleted` on a collection with no completed item calls
neither `save()` nor `render()` and leaves the collection unchanged;
when a completed item exists it removes exactly the completed items in
one batch and persists. -/
theorem c3_clearCompleted (todos : List Todo) :
    ((∀ t ∈ todos, t.completed = false) → clearCompleted todos = ⟨todos, false, false⟩) ∧
    ((∃ t ∈ todos, t.completed = true) →
      (clearCompleted todos).todos = todos.filter (fun t => !t.completed) ∧
      (clearCompleted todos).saved = true ∧ (clearCompleted todos).rendered = true) := by
  constructor
  · intro h
    have hfe : todos.filter (fun t => !t.completed) = todos :=
      List.filter_eq_self.2 (fun t ht => by simp [h t ht])
    simp [clearCompleted, hfe]
  · intro h
    have hlt : (todos.filter (fun t => !t.completed)).length < todos.length := by
      refine List.length_filter_lt_length_iff_exists.2 ?_
      obtain ⟨t, ht, hc⟩ := h
      exact ⟨t, ht, by simp [hc]⟩
    have hne : (todos.filter (fun t => !t.completed)).length ≠ todos.length :=
      Nat.ne_of_lt hlt
    simp [clearCompleted, hne]

/-- C3 (witness): the spec's own example `[{a,false},{b,true}]` plus the
zero-completed case. -/
theorem c3_clearCompleted_witness :
    clearCompleted [Todo.mk "a" "x" false 0] = ⟨[Todo.mk "a" "x" false 0], false, false⟩ ∧
    ((clearCompleted [Todo.mk "a" "x" false 0, Todo.mk "b" "y" true 0]).todos =
        [Todo.mk "a" "x" false 0, Todo.mk "b" "y" true 0].filter (fun t => !t.completed) ∧
      (clearCompleted [Todo.mk "a" "x" false 0, Todo.mk "b" "y" true 0]).saved = true ∧
      (clearCompleted [Todo.mk "a" "x" false 0, Todo.mk "b" "y" true 0]).rendered = true) :=
  ⟨(c3_clearCompleted [Todo.mk "a" "x" false 0]).1 (by decide),
   (c3_clearCompleted [Todo.mk "a" "x" false 0, Todo.mk "b" "y" true 0]).2
     ⟨Todo.mk "b" "y" true 0, by decide, rfl⟩⟩

/-- C4: adding a string whose ECMAScript-trimmed form is empty is a
no-op: the collection is unchanged (in particular its size) and neither
`save()` nor `render()` is called. -/
theorem c4_add_blank (nid : String) (now : Nat) (text : String) (todos : List Todo)
    (h : jsTrim text = "") :
    addTodo nid now text todos = ⟨todos, false, false⟩ := by
  simp [addTodo, h]

/-- C4 (witness): adding whitespace-only input to a one-item collection. -/
theorem c4_add_blank_witness :
    addTodo "n1" 7 "  \t " [Todo.mk "a" "x" false 0] =
      ⟨[Todo.mk "a" "x" false 0], false, false⟩ :=
  c4_add_blank "n1" 7 "  \t " [Todo.mk "a" "x" false 0] (by decide)

/-- C5 (counterexample): toggling item `"a"` (present, already
completed) to `completed = true` leaves the active count at 0 — it does
not change by exactly one, refuting the claim as stated for repeated
toggles to the same value. -/
theorem c5_counterexample :
    (∃ t ∈ [Todo.mk "a" "x" true 0], t.id = "a") ∧
    ¬ (activeCount (toggleTodo "a" true [Todo.mk "a" "x" true 0]).todos + 1 =
         activeCount [Todo.mk "a" "x" true 0] ∨
       activeCount (toggleTodo "a" true [Todo.mk "a" "x" true 0]).todos =
         activeCount [Todo.mk "a" "x" true 0] + 1) := by
  decide

/-- C5 (amended): under unique ids, when the given value differs from
the matching item's current flag, toggling changes the active count by
exactly one — down by one when completing, up by one when un-completing. -/
theorem c5_toggle_active_count (todos : List Todo) (id : String) (c : Bool)
    (hn : (todos.map Todo.id).Nodup) (t : Todo) (ht : t ∈ todos) (hid : t.id = id)
    (hne : t.completed ≠ c) :
    (c = true → activeCount (toggleTodo id c todos).todos + 1 = activeCount todos) ∧
    (c = false → activeCount (toggleTodo id c todos).todos = activeCount todos + 1) := by
  have ha : todos.any (fun x => x.id == id) = true :=
    (any_id_eq_true id todos).2 ⟨t, ht, hid⟩
  have key := activeCount_setFirst id c t todos hn ht hid hne
  constructor <;> intro hc <;> subst hc <;> simp only [toggleTodo, ha, if_true] <;>
    simp at key ⊢ <;> omega

/-- C5 (witness): completing the single active item drops the count from
1 to 0; un-completing the single completed item raises it from 0 to 1. -/
theorem c5_toggle_active_count_witness :
    (true = true →
      activeCount (toggleTodo "a" true [Todo.mk "a" "x" false 0]).todos + 1 =
        activeCount [Todo.mk "a" "x" false 0]) ∧
    (true = false →
      activeCount (toggleTodo "a" true [Todo.mk "a" "x" false 0]).todos =
        activeCount [Todo.mk "a" "x" false 0] + 1) :=
  c5_toggle_active_count [Todo.mk "a" "x" false 0] "a" true (by decide)
    (Todo.mk "a" "x" false 0) (by decide) rfl (by decide)

/-- C6: `load` never raises to its caller (it is a total function) and
yields the empty collection whenever the stored value is missing or the
parse fails; on any other stored value it yields the parsed collection.
`parse` stands for `JSON.parse` (returning `none` models a thrown
`SyntaxError`, caught by the surrounding `try`); the hypothesis records
that the empty string is not valid JSON. -/
theorem c6_load_defaults (parse : String → Option (List Todo))
    (storage : String → Option String) (hpe : parse "" = none) :
    (storage STORAGE_KEY = none → load parse storage = []) ∧
    (∀ raw, storage STORAGE_KEY = some raw → parse raw = none →
      load parse storage = []) ∧
    (∀ raw ts, storage STORAGE_KEY = some raw → parse raw = some ts →
      load parse storage = ts) := by
  refine ⟨fun h => by simp [load, h], fun raw h hp => ?_, fun raw ts h hp => ?_⟩
  · by_cases he : raw = "" <;> simp [load, h, hp, he]
  · by_cases he : raw = ""
    · rw [he, hpe] at hp; cases hp
    · simp [load, h, he, hp]

/-- C6 (witness): all three cases at concrete storage contents, with a
concrete parse function that fails on the empty string. -/
theorem c6_load_defaults_witness :
    load (fun s => if s = "[]" then some [] else none) (fun _ => none) = [] ∧
    load (fun s => if s = "[]" then some [] else none) (fun _ => some "x") = [] ∧
    load (fun s => if s = "[]" then some [] else none) (fun _ => some "[]") = [] :=
  ⟨(c6_load_defaults _ _ (by decide)).1 rfl,
   (c6_load_defaults _ _ (by decide)).2.1 "x" rfl (by decide),
   (c6_load_defaults _ _ (by decide)).2.2 "[]" [] rfl (by decide)⟩

/-- C8: the rendered count label is the number of items whose completion
flag is false, a space, and the word `item` exactly when that number is
1, else `items`. -/
theorem c8_count_label (todos : List Todo) :
    renderCounts todos =
      toString (todos.countP fun t => decide (t.completed = false)) ++ " " ++
        (if (todos.countP fun t => decide (t.completed = false)) = 1
          then "item" else "items") := by
  have hp : (fun t : Todo => decide (t.completed = false)) = fun t => !t.completed := by
    funext t; cases t.completed <;> rfl
  have h1 : todos.countP (fun t => !t.completed) = activeCount todos :=
    List.countP_eq_length_filter _ _
  rw [hp, h1]
  rfl

/-- C9: newest-first insertion order — a non-blank add places the fresh
item at the front with the remaining items untouched; toggle preserves
the id sequence (hence the relative order of all items); delete and
clear-completed each produce a sublist of the original (the surviving
items keep their relative order). -/
theorem c9_order (todos : List Todo) (id nid text : String) (now : Nat) (c : Bool)
    (hne : jsTrim text ≠ "") :
    (addTodo nid now text todos).todos = ⟨nid, jsTrim text, false, now⟩ :: todos ∧
    (toggleTodo id c todos).todos.map Todo.id = todos.map Todo.id ∧
    (deleteTodo id todos).todos.Sublist todos ∧
    (clearCompleted todos).todos.Sublist todos := by
  refine ⟨?_, ?_, ?_, ?_⟩
  · simp [addTodo, hne]
  · rw [toggleTodo]
    split
    · simp [setFirst_map_id]
    · rfl
  · exact List.filter_sublist todos
  · rw [clearCompleted]
    split
    · exact List.filter_sublist todos
    · exact List.filter_sublist todos

/-- C9 (witness): the conjunction at a concrete collection and a
non-blank text. -/
theorem c9_order_witness :
    (addTodo "n1" 5 " hi " [Todo.mk "a" "x" true 0]).todos =
      ⟨"n1", jsTrim " hi ", false, 5⟩ :: [Todo.mk "a" "x" true 0] ∧
    (toggleTodo "a" false [Todo.mk "a" "x" true 0]).todos.map Todo.id =
      [Todo.mk "a" "x" true 0].map Todo.id ∧
    (deleteTodo "a" [Todo.mk "a" "x" true 0]).todos.Sublist [Todo.mk "a" "x" true 0] ∧
    (clearCompleted [Todo.mk "a" "x" true 0]).todos.Sublist [Todo.mk "a" "x" true 0] :=
  c9_order [Todo.mk "a" "x" true 0] "a" "n1" " hi " 5 false (by decide)

/-- C10: under unique ids, toggling a present id rewrites the collection
to the pointwise map that changes only the matching item's completion
flag — its id, text and creation timestamp, every other item, and the
positions of all items are untouched. -/
theorem c10_toggle_frame (todos : List Todo) (id : String) (c : Bool)
    (hn : (todos.map Todo.id).Nodup) (hp : ∃ t ∈ todos, t.id = id) :
    (toggleTodo id c todos).todos =
      todos.map (fun t => if t.id = id then { t with completed := c } else t) := by
  have ha : todos.any (fun x => x.id == id) = true := (any_id_eq_true id todos).2 hp
  simp [toggleTodo, ha, setFirst_eq_map id c todos hn]

/-- C10 (witness): the frame property at a concrete two-item collection. -/
theorem c10_toggle_frame_witness :
    (toggleTodo "b" true [Todo.mk "a" "x" false 3, Todo.mk "b" "y" false 4]).todos =
      [Todo.mk "a" "x" false 3, Todo.mk "b" "y" false 4].map
        (fun t => if t.id = "b" then { t with completed := true } else t) :=
  c10_toggle_frame [Todo.mk "a" "x" false 3, Todo.mk "b" "y" false 4] "b" true
    (by decide) ⟨Todo.mk "b" "y" false 4, by decide, rfl⟩

/-!
## Round-trip lemmas for the JSON codec
-/

/-- Consuming a literal off a string that starts with it yields the
tail. -/
theorem expectLit_append (l s : List Char) : expectLit l (l ++ s) = some s := by
  induction l with
  | nil => rfl
  | cons c l ih => simp [expectLit, ih]

/-- Singleton form of `expectLit_append`. -/
theorem expectLit_single (c : Char) (s : List Char) :
    expectLit [c] (c :: s) = some s := by
  simp [expectLit]

/-- The boolean parser inverts the boolean printer. -/
theorem parseBool_boolChars (b : Bool) (r : List Char) :
    parseBool (boolChars b ++ r) = some (b, r) := by
  cases b <;> simp [parseBool, boolChars, expectLit, expectLit_append]

/-- `hexVal` inverts `hexDigitChar` on digit values. -/
theorem hexVal_hexDigitChar : ∀ d < 16, hexVal (hexDigitChar d) = some d := by
  decide

/-- One escaped character parses back to that character, continuing on
the remaining input. -/
theorem parseStringBody_escapeChar (c : Char) (Y : List Char) :
    parseStringBody (escapeChar c ++ Y) =
      (parseStringBody Y).map (fun p => (c :: p.1, p.2)) := by
  by_cases h1 : c = '"'
  · subst h1
    have he : escapeChar '"' = ['\\', '"'] := rfl
    rw [he]
    simp only [List.cons_append, List.nil_append]
    conv_lhs => rw [parseStringBody.eq_def]
    simp
  · by_cases h2 : c = '\\'
    · subst h2
      have he : escapeChar '\\' = ['\\', '\\'] := rfl
      rw [he]
      simp only [List.cons_append, List.nil_append]
      conv_lhs => rw [parseStringBody.eq_def]
      simp
    · by_cases h3 : c.toNat = 8
      · have hc : Char.ofNat 8 = c := by rw [← h3, Char.ofNat_toNat]
        rw [escapeChar, if_neg h1, if_neg h2, if_pos h3]
        simp only [List.cons_append, List.nil_append]
        conv_lhs => rw [parseStringBody.eq_def]
        simp
        rw [hc]
      · by_cases h4 : c.toNat = 9
        · have hc : Char.ofNat 9 = c := by rw [← h4, Char.ofNat_toNat]
          rw [escapeChar, if_neg h1, if_neg h2, if_neg h3, if_pos h4]
          simp only [List.cons_append, List.nil_append]
          conv_lhs => rw [parseStringBody.eq_def]
          simp
          rw [hc]
        · by_cases h5 : c.toNat = 10
          · have hc : Char.ofNat 10 = c := by rw [← h5, Char.ofNat_toNat]
            rw [escapeChar, if_neg h1, if_neg h2, if_neg h3, if_neg h4, if_pos h5]
            simp only [List.cons_append, List.nil_append]
            conv_lhs => rw [parseStringBody.eq_def]
            simp
            rw [hc]
          · by_cases h6 : c.toNat = 12
            · have hc : Char.ofNat 12 = c := by rw [← h6, Char.ofNat_toNat]
              rw [escapeChar, if_neg h1, if_neg h2, if_neg h3, if_neg h4, if_neg h5,
                if_pos h6]
              simp only [List.cons_append, List.nil_append]
              conv_lhs => rw [parseStringBody.eq_def]
              simp
              rw [hc]
            · by_cases h7 : c.toNat = 13
              · have hc : Char.ofNat 13 = c := by rw [← h7, Char.ofNat_toNat]
                rw [escapeChar, if_neg h1, if_neg h2, if_neg h3, if_neg h4, if_neg h5,
                  if_neg h6, if_pos h7]
                simp only [List.cons_append, List.nil_append]
                conv_lhs => rw [parseStringBody.eq_def]
                simp
                rw [hc]
              · by_cases h8 : c.toNat < 32
                · have hd1 : hexVal (hexDigitChar (c.toNat / 16)) = some (c.toNat / 16) :=
                    hexVal_hexDigitChar _ (by omega)
                  have hd2 : hexVal (hexDigitChar (c.toNat % 16)) = some (c.toNat % 16) :=
                    hexVal_hexDigitChar _ (by omega)
                  have h0 : hexVal '0' = some 0 := by decide
                  have hc : hex4 0 0 (c.toNat / 16) (c.toNat % 16) = c := by
                    rw [hex4, show 4096 * 0 + 256 * 0 + 16 * (c.toNat / 16) +
                      c.toNat % 16 = c.toNat from by omega, Char.ofNat_toNat]
                  rw [escapeChar, if_neg h1, if_neg h2, if_neg h3, if_neg h4, if_neg h5,
                    if_neg h6, if_neg h7, if_pos h8]
                  simp only [List.cons_append, List.nil_append]
                  conv_lhs => rw [parseStringBody.eq_def]
                  simp [h0, hd1, hd2]
                  rw [hc]
                · rw [escapeChar, if_neg h1, if_neg h2, if_neg h3, if_neg h4, if_neg h5,
                    if_neg h6, if_neg h7, if_neg h8]
                  simp only [List.cons_append, List.nil_append]
                  conv_lhs => rw [parseStringBody.eq_def]
                  simp [h1, h2, h8]

/-- The string-body parser inverts the `QuoteJSONString` escaper: the
escaped characters followed by a closing quote parse back exactly. -/
theorem parseStringBody_escape (cs rest : List Char) :
    parseStringBody (cs.flatMap escapeChar ++ '"' :: rest) = some (cs, rest) := by
  induction cs with
  | nil =>
    simp only [List.flatMap_nil, List.nil_append]
    conv_lhs => rw [parseStringBody.eq_def]
    simp
  | cons c cs ih =>
    rw [List.flatMap_cons, List.append_assoc, parseStringBody_escapeChar, ih]
    rfl

/-- Decimal digit characters satisfy the digit test. -/
theorem isDigitCh_ofNat : ∀ d < 10, isDigitCh (Char.ofNat (48 + d)) = true := by
  decide

/-- Code point of a decimal digit character. -/
theorem toNat_digit : ∀ d < 10, (Char.ofNat (48 + d)).toNat = 48 + d := by
  decide

/-- A nonzero digit is not the character `0`. -/
theorem digit_ne_zero : ∀ d < 10, 0 < d → Char.ofNat (48 + d) ≠ '0' := by
  decide

/-- Every character of a printed number is a digit. -/
theorem toDec_digits (n : Nat) : ∀ c ∈ toDec n, isDigitCh c = true := by
  induction n using Nat.strong_induction_on with
  | _ n ih =>
    intro c hc
    rw [toDec] at hc
    by_cases h : n < 10
    · rw [dif_pos h] at hc
      simp only [List.mem_singleton] at hc
      subst hc
      exact isDigitCh_ofNat n h
    · rw [dif_neg h] at hc
      rcases List.mem_append.1 hc with h1 | h1
      · exact ih (n / 10) (Nat.div_lt_self (by omega) (by omega)) c h1
      · simp only [List.mem_singleton] at h1
        subst h1
        exact isDigitCh_ofNat _ (by omega)

/-- A printed number is never the empty digit string. -/
theorem toDec_ne_nil (n : Nat) : toDec n ≠ [] := by
  rw [toDec]
  by_cases h : n < 10
  · rw [dif_pos h]; simp
  · rw [dif_neg h]; simp

/-- A printed positive number has no leading zero. -/
theorem toDec_head_ne_zero (n : Nat) :
    0 < n → ∀ d rest, toDec n = d :: rest → d ≠ '0' := by
  induction n using Nat.strong_induction_on with
  | _ n ih =>
    intro hn d rest htd
    rw [toDec] at htd
    by_cases h : n < 10
    · rw [dif_pos h] at htd
      obtain ⟨rfl, -⟩ := List.cons.inj htd.symm
      exact digit_ne_zero n h hn
    · rw [dif_neg h] at htd
      cases hcase : toDec (n / 10) with
      | nil => exact absurd hcase (toDec_ne_nil _)
      | cons d0 r0 =>
        rw [hcase, List.cons_append] at htd
        obtain ⟨rfl, -⟩ := List.cons.inj htd
        exact ih (n / 10) (Nat.div_lt_self (by omega) (by omega))
          (Nat.div_pos (by omega) (by omega)) d0 r0 hcase

/-- Appending one digit multiplies the value by ten and adds it. -/
theorem digitsToNat_append_digit (l : List Char) (d : Char) :
    digitsToNat (l ++ [d]) = 10 * digitsToNat l + (d.toNat - 48) := by
  simp [digitsToNat, List.foldl_append]

/-- The digit-string value of a printed number is the number. -/
theorem digitsToNat_toDec (n : Nat) : digitsToNat (toDec n) = n := by
  induction n using Nat.strong_induction_on with
  | _ n ih =>
    rw [toDec]
    by_cases h : n < 10
    · rw [dif_pos h]
      have := toNat_digit n h
      simp [digitsToNat]
      omega
    · rw [dif_neg h]
      rw [digitsToNat_append_digit, ih (n / 10) (Nat.div_lt_self (by omega) (by omega))]
      have := toNat_digit (n % 10) (by omega)
      omega

/-- `takeWhile`/`dropWhile` split an all-digit prefix exactly at the
first non-digit. -/
theorem takeWhile_digits_append (l : List Char) (d : Char) (r : List Char)
    (hl : ∀ c ∈ l, isDigitCh c = true) (hd : isDigitCh d = false) :
    (l ++ d :: r).takeWhile isDigitCh = l ∧
      (l ++ d :: r).dropWhile isDigitCh = d :: r := by
  induction l with
  | nil => simp [List.takeWhile_cons, List.dropWhile_cons, hd]
  | cons c l ih =>
    have hc := hl c (by simp)
    have ihh := ih (fun x hx => hl x (by simp [hx]))
    simp [List.takeWhile_cons, List.dropWhile_cons, hc, ihh]

/-- The number parser inverts the number printer, stopping at the first
non-digit. -/
theorem parseNatTok_toDec (n : Nat) (d : Char) (r : List Char)
    (hd : isDigitCh d = false) :
    parseNatTok (toDec n ++ d :: r) = some (n, d :: r) := by
  obtain ⟨htake, hdrop⟩ := takeWhile_digits_append (toDec n) d r (toDec_digits n) hd
  have hcond : ¬((toDec n).head? = some '0' ∧ (toDec n).length ≠ 1) := by
    rintro ⟨hz, hlen⟩
    by_cases h : n < 10
    · rw [toDec, dif_pos h] at hlen
      exact hlen rfl
    · cases hcase : toDec n with
      | nil => exact toDec_ne_nil n hcase
      | cons d0 r0 =>
        rw [hcase] at hz
        simp only [List.head?_cons, Option.some.injEq] at hz
        exact toDec_head_ne_zero n (by omega) d0 r0 hcase hz
  simp only [parseNatTok]
  rw [htake, hdrop, if_neg (toDec_ne_nil n), if_neg hcond, digitsToNat_toDec]

/-- The task-item parser inverts the task-item printer, leaving the
trailing input untouched. -/
theorem parseTodoObj_stringify (t : Todo) (rest : List Char) :
    parseTodoObj (stringifyTodoChars t ++ rest) = some (t, rest) := by
  have h125 : isDigitCh (Char.ofNat 125) = false := by decide
  have hnat := parseNatTok_toDec t.createdAt (Char.ofNat 125) rest h125
  rw [stringifyTodoChars]
  simp only [List.append_assoc, List.cons_append, List.nil_append]
  simp [parseTodoObj, escString, expectLit_append, parseStringBody_escape,
    parseBool_boolChars, hnat, expectLit_single]

/-- A serialized task item starts with an opening brace. -/
theorem stringifyTodoChars_head (t : Todo) :
    ∃ tl, stringifyTodoChars t = Char.ofNat 123 :: tl :=
  ⟨_, rfl⟩

/-- A non-empty serialized item sequence starts with an opening brace. -/
theorem itemsChars_cons_head (t : Todo) (ts : List Todo) :
    ∃ tl, itemsChars (t :: ts) = Char.ofNat 123 :: tl := by
  cases ts with
  | nil => exact stringifyTodoChars_head t
  | cons t2 ts2 =>
    obtain ⟨tl, htl⟩ := stringifyTodoChars_head t
    exact ⟨tl ++ ',' :: itemsChars (t2 :: ts2), by simp [itemsChars, htl]⟩

/-- A serialized task item is non-empty. -/
theorem one_le_length_stringifyTodoChars (t : Todo) :
    1 ≤ (stringifyTodoChars t).length := by
  obtain ⟨tl, htl⟩ := stringifyTodoChars_head t
  simp [htl]

/-- The serialized item sequence is at least as long as the item list. -/
theorem le_length_itemsChars : ∀ ts : List Todo, ts.length ≤ (itemsChars ts).length := by
  intro ts
  induction ts with
  | nil => simp [itemsChars]
  | cons t ts ih =>
    cases ts with
    | nil => simpa [itemsChars] using one_le_length_stringifyTodoChars t
    | cons t2 ts2 =>
      have h1 := one_le_length_stringifyTodoChars t
      simp only [itemsChars, List.length_append, List.length_cons] at *
      omega

/-- The item-sequence parser inverts the item-sequence printer, given
fuel at least the number of items. -/
theorem parseItemsAux_itemsChars :
    ∀ (ts : List Todo) (fuel : Nat), ts ≠ [] → ts.length ≤ fuel → ∀ rest,
      parseItemsAux fuel (itemsChars ts ++ ']' :: rest) = some (ts, rest) := by
  intro ts
  induction ts with
  | nil => intro fuel h; exact absurd rfl h
  | cons t ts ih =>
    intro fuel _ hf rest
    cases fuel with
    | zero => simp at hf
    | succ fuel =>
      cases ts with
      | nil =>
        simp only [itemsChars]
        simp [parseItemsAux, parseTodoObj_stringify]
      | cons t2 ts2 =>
        have h2 := ih fuel (by simp) (by simp at hf ⊢; omega) rest
        simp only [itemsChars, List.append_assoc, List.cons_append]
        simp [parseItemsAux, parseTodoObj_stringify, h2]

/-- The array parser inverts the array printer. -/
theorem parseTodosChars_stringify (l : List Todo) :
    parseTodosChars ('[' :: itemsChars l ++ [']']) = some l := by
  cases l with
  | nil => rfl
  | cons t ts =>
    obtain ⟨tl, htl⟩ := itemsChars_cons_head t ts
    have hfuel : (t :: ts).length ≤ (itemsChars (t :: ts) ++ [']']).length + 1 := by
      have h := le_length_itemsChars (t :: ts)
      have h2 : (itemsChars (t :: ts) ++ [']']).length =
          (itemsChars (t :: ts)).length + 1 := by simp
      omega
    have hparse := parseItemsAux_itemsChars (t :: ts)
      ((itemsChars (t :: ts) ++ [']']).length + 1) (by simp) hfuel []
    have hne : itemsChars (t :: ts) ++ [']'] ≠ [']'] := by
      intro h
      have := congrArg List.length h
      simp [htl] at this
    rw [List.cons_append]
    simp only [parseTodosChars]
    rw [if_neg hne, hparse]
    simp

/-- Serialization never produces the empty string (which `load` would
treat as falsy). -/
theorem stringifyTodos_ne_empty (l : List Todo) : stringifyTodos l ≠ "" := by
  intro h
  have h2 : '[' :: itemsChars l ++ [']'] = ([] : List Char) := congrArg String.data h
  simp at h2

/-- The full `JSON.parse` model inverts the full `JSON.stringify` model
on task-item arrays. -/
theorem parseTodos_stringifyTodos (l : List Todo) :
    parseTodos (stringifyTodos l) = some l := by
  have hdata : (stringifyTodos l).data = '[' :: itemsChars l ++ [']'] := rfl
  rw [parseTodos, hdata, parseTodosChars_stringify]

/-- C7: saving a collection with the local variant and then loading
yields exactly the saved collection — in particular every item's
identifier, text content and completion flag (and timestamp) are those
of the saved collection, whatever was previously in storage. -/
theorem c7_save_load_roundtrip (storage : String → Option String) (todos : List Todo) :
    loadLocal (saveLocal storage todos) = todos := by
  simp [loadLocal, saveLocal, load, save, stringifyTodos_ne_empty todos,
    parseTodos_stringifyTodos]
